import Mathlib

/-!
Verification of the TechMecca/Obfuscator repository.

This file gives a shallow embedding of the two headers of the repository:

* `StringObfuscator.h` — a five-layer reversible byte cipher
  (`ObfuscateString` / `DecryptString`), its seed mixer `mix32`, and the
  lazily decoded, securely wiped `ObfuscatedString` holder.  Byte buffers
  are modelled as `List Nat` with every element `< 256`; `uint32` / `uint64`
  arithmetic is modelled on `Nat` with explicit `% 2^32` / `% 2^64`.

* `Junk.h` — the junk-pattern dispatcher `emit` / `emit_heavy`.  Since the
  pattern bodies only touch `volatile` locals, the embedding records the
  *plan*: which pattern blocks are invoked, with which arguments, as a list
  of events.

Theorems about the claims of the specification follow the definitions.
-/

set_option maxHeartbeats 1000000
set_option maxRecDepth 100000

/-! ## Generic list helpers used by the embedding -/

/-- `nth l i` is `l[i]` with default `0`, mirroring in-bounds C array indexing. -/
def nth : List Nat → Nat → Nat
  | [], _ => 0
  | c :: _, 0 => c
  | _ :: cs, n + 1 => nth cs n

/-- Index-aware map starting at index `k`; models `for (i = 0; i < N; ++i)`
byte loops. -/
def mapIdxFrom (f : Nat → Nat → Nat) : Nat → List Nat → List Nat
  | _, [] => []
  | k, c :: cs => f k c :: mapIdxFrom f (k + 1) cs

/-- All entries of the buffer are bytes. -/
def Bytes8 (l : List Nat) : Prop := ∀ c ∈ l, c < 256

namespace StringObfuscator

/-! ## `StringObfuscator.h`: constexpr utilities -/

/-- `rotl8`: `(uint8_t)((v << (r & 7)) | (v >> ((8 - (r & 7)) & 7)))`. -/
def rotl8 (v r : Nat) : Nat :=
  ((v <<< (r % 8)) ||| (v >>> ((8 - r % 8) % 8))) % 256

/-- `rotr8`: `(uint8_t)((v >> (r & 7)) | (v << ((8 - (r & 7)) & 7)))`. -/
def rotr8 (v r : Nat) : Nat :=
  ((v >>> (r % 8)) ||| (v <<< ((8 - r % 8) % 8))) % 256

/-- First xorshift step of `mix32`: `x ^= x << 13` on `uint32_t`. -/
def xsStepA (x : Nat) : Nat := (x ^^^ (x <<< 13)) % 4294967296

/-- Second xorshift step of `mix32`: `x ^= x >> 17` on `uint32_t`. -/
def xsStepB (x : Nat) : Nat := (x ^^^ (x >>> 17)) % 4294967296

/-- Third xorshift step of `mix32`: `x ^= x << 5` on `uint32_t`. -/
def xsStepC (x : Nat) : Nat := (x ^^^ (x <<< 5)) % 4294967296

/-- `mix32`: `x ^= x << 13; x ^= x >> 17; x ^= x << 5; return x;`. -/
def mix32 (x : Nat) : Nat := xsStepC (xsStepB (xsStepA x))

/-- The internal cipher key of `ObfuscateString` / `DecryptString`:
`K = mix32(SEED * 0x9E3779B1u + (uint32_t)N)`. -/
def obfKey (SEED N : Nat) : Nat := mix32 ((SEED * 0x9E3779B1 + N) % 4294967296)

end StringObfuscator

namespace StringObfuscator

/-! ## Layer 1: keystream XOR -/

/-- `key1 = ((uint64_t)SEED * 0x100000001B3ull) ^ 0xDEADBEEFull`. -/
def key1 (K : Nat) : Nat := ((K * 0x100000001B3) % 18446744073709551616) ^^^ 0xDEADBEEF

/-- `key2 = ((uint64_t)SEED * 0x1000000001B3ull) ^ 0xCAFEBABEull`. -/
def key2 (K : Nat) : Nat := ((K * 0x1000000001B3) % 18446744073709551616) ^^^ 0xCAFEBABE

/-- Per-byte body of `Layer1_XOR`:
`c ^= (key1 >> (i*8 % 56)) & 0xFF; c ^= (key2 >> (i*3 % 56)) & 0xFF`. -/
def l1enc (K i c : Nat) : Nat :=
  (c ^^^ ((key1 K >>> ((i * 8) % 56)) &&& 0xFF)) ^^^ ((key2 K >>> ((i * 3) % 56)) &&& 0xFF)

def Layer1_XOR (K : Nat) (str : List Nat) : List Nat := mapIdxFrom (l1enc K) 0 str

/-- Per-byte body of the Layer 1 undo in `DecryptString` (XORs `key2` first). -/
def l1dec (K i c : Nat) : Nat :=
  (c ^^^ ((key2 K >>> ((i * 3) % 56)) &&& 0xFF)) ^^^ ((key1 K >>> ((i * 8) % 56)) &&& 0xFF)

/-! ## Layer 2: bit rotation plus alternating XOR -/

/-- Per-byte body of `Layer2_BitRotate` with `base = SEED % 7 + 1` and
`r = (base + i) % 7 + 1`. -/
def l2enc (K i c : Nat) : Nat :=
  rotl8 c ((K % 7 + 1 + i) % 7 + 1) ^^^ (if i % 2 = 0 then 0xAA else 0x55)

def Layer2_BitRotate (K : Nat) (l : List Nat) : List Nat := mapIdxFrom (l2enc K) 0 l

/-- Per-byte body of the Layer 2 undo in `DecryptString`. -/
def l2dec (K i c : Nat) : Nat :=
  rotr8 (c ^^^ (if i % 2 = 0 then 0xAA else 0x55)) ((K % 7 + 1 + i) % 7 + 1)

/-! ## Layer 3: swap schedule plus affine byte map -/

/-- Swap index of the shuffle loop:
`j = ((std::size_t)SEED * (i + 1)) % (i + 1)` with 64-bit `size_t` wrap-around
in the multiplication. -/
def jswap (K i : Nat) : Nat := ((K * (i + 1)) % 18446744073709551616) % (i + 1)

/-- `cswap(out[a], out[b])` on a list. -/
def swapL (l : List Nat) (a b : Nat) : List Nat := (l.set a (nth l b)).set b (nth l a)

/-- Apply a sequence of swaps in order. -/
def applySwaps (ps : List (Nat × Nat)) (l : List Nat) : List Nat :=
  ps.foldl (fun acc p => swapL acc p.1 p.2) l

/-- The swap schedule of `Layer3_Shuffle`: `for (i = N - 1; i > 0; --i)`
swap positions `i` and `jswap K i`. -/
def swapSeq (K N : Nat) : List (Nat × Nat) :=
  (((List.range N).drop 1).reverse).map (fun i => (i, jswap K i))

/-- Affine byte map of Layer 3: `(uint8_t)(out[i] + 13u) ^ 42u`. -/
def l3affine (c : Nat) : Nat := ((c + 13) % 256) ^^^ 42

def Layer3_Shuffle (K : Nat) (l : List Nat) : List Nat :=
  (applySwaps (swapSeq K l.length) l).map l3affine

/-- Inverse affine byte map used by `DecryptString`: `(uint8_t)((c ^ 42u) - 13u)`. -/
def l3affineInv (c : Nat) : Nat := ((c ^^^ 42) + 243) % 256

/-- The unshuffle of `DecryptString`: recompute the index table by running the
same swap schedule on the identity, then scatter `unshuf[idx[i]] = data[i]`. -/
def unshuffle (K : Nat) (data : List Nat) : List Nat :=
  let N := data.length
  let idx := applySwaps (swapSeq K N) (List.range N)
  (List.range N).foldl (fun acc i => acc.set (nth idx i) (nth data i))
    (List.replicate N 0)

/-! ## Layer 4: XOR pass, complement pass, rotate pass -/

/-- Per-byte XOR pass of `Layer4_MultiPass`: `out[i] ^= (uint8_t)((SEED + i) & 0xFF)`. -/
def l4xor (K i c : Nat) : Nat := c ^^^ ((K + i) % 256)

/-- `(uint8_t)~c`. -/
def l4not (c : Nat) : Nat := 255 - c

def Layer4_MultiPass (K : Nat) (l : List Nat) : List Nat :=
  ((mapIdxFrom (l4xor K) 0 l).map l4not).map (fun c => rotr8 c 2)

/-! ## Layer 5: affine substitution with per-index tweak -/

/-- `mul197(v) = (uint8_t)(197u * v)`. -/
def mul197 (v : Nat) : Nat := (197 * v) % 256

/-- `mul197_inv(v) = (uint8_t)(13u * v)` — `13 = 197⁻¹ mod 256`. -/
def mul197_inv (v : Nat) : Nat := (13 * v) % 256

/-- Per-byte body of `Layer5_AsciiBreaker_Enc`:
`e = (uint8_t)(mul197(v) + 101); e = (e ^ 0xA5) ^ (uint8_t)(i * 139)`. -/
def l5enc (i v : Nat) : Nat :=
  (((mul197 v + 101) % 256) ^^^ 0xA5) ^^^ ((i * 139) % 256)

/-- Per-byte body of `Layer5_AsciiBreaker_Dec`:
`d = (e ^ 0xA5) ^ (uint8_t)(i * 139); d = (uint8_t)(d - 101); mul197_inv(d)`. -/
def l5dec (i e : Nat) : Nat :=
  mul197_inv ((((e ^^^ 0xA5) ^^^ ((i * 139) % 256)) + 155) % 256)

/-- `Layer5_AsciiBreaker_Enc` (the `SEED` template argument is unused:
`(void)SEED`). -/
def Layer5_AsciiBreaker_Enc (_SEED : Nat) (l : List Nat) : List Nat :=
  mapIdxFrom l5enc 0 l

def Layer5_AsciiBreaker_Dec (_SEED : Nat) (l : List Nat) : List Nat :=
  mapIdxFrom l5dec 0 l

/-! ## Full pipeline -/

/-- `ObfuscateString<N, SEED>`: Layer 1 through Layer 5 in order, keyed by
`K = mix32(SEED * 0x9E3779B1u + N)`. -/
def ObfuscateString (SEED : Nat) (str : List Nat) : List Nat :=
  let K := obfKey SEED str.length
  Layer5_AsciiBreaker_Enc K
    (Layer4_MultiPass K (Layer3_Shuffle K (Layer2_BitRotate K (Layer1_XOR K str))))

/-- `DecryptString<N, SEED>`: undo Layer 5, 4, 3, 2, 1 in that order. -/
def DecryptString (SEED : Nat) (enc : List Nat) : List Nat :=
  let K := obfKey SEED enc.length
  let d5 := Layer5_AsciiBreaker_Dec K enc
  let d4c := d5.map (fun c => rotl8 c 2)
  let d4b := d4c.map l4not
  let d4a := mapIdxFrom (l4xor K) 0 d4b
  let d3b := d4a.map l3affineInv
  let d3a := unshuffle K d3b
  let d2 := mapIdxFrom (l2dec K) 0 d3a
  mapIdxFrom (l1dec K) 0 d2

end StringObfuscator

/-! verification inverses of the xorshift steps of `mix32` -/

/-- Inverse of `x ^= x << 13` on 32 bits (the shift is nilpotent mod `2^32`). -/
def xsInvA (y : Nat) : Nat := ((y ^^^ (y <<< 13)) ^^^ (y <<< 26)) % 4294967296

/-- Inverse of `x ^= x >> 17` on 32 bits. -/
def xsInvB (y : Nat) : Nat := (y ^^^ (y >>> 17)) % 4294967296

/-- Inverse of `x ^= x << 5` on 32 bits. -/
def xsInvC (y : Nat) : Nat :=
  ((((((y ^^^ (y <<< 5)) ^^^ (y <<< 10)) ^^^ (y <<< 15)) ^^^ (y <<< 20)) ^^^
    (y <<< 25)) ^^^ (y <<< 30)) % 4294967296

/-! ## `ObfuscatedString`: lazy decode-and-cache holder -/

namespace StringObfuscator

/-- State of one `ObfuscatedString<N, SEED>` instance: the immutable
`encrypted_` buffer, the mutable `decrypted_` cache and the `dec_` flag. -/
structure ObfuscatedStringState where
  encrypted : List Nat
  decrypted : List Nat
  dec : Bool

/-- The constructor `ObfuscatedString(enc)`: stores `enc`, leaves the cache
default-empty, `dec_ = false`. -/
def mkObfuscatedString (enc : List Nat) : ObfuscatedStringState :=
  { encrypted := enc, decrypted := [], dec := false }

/-- `ensure()` paired with an instrumentation counter that counts executions
of the decode computation:
`if (!dec_) { decrypted_ = DecryptString<N, SEED>(encrypted_); dec_ = true; }`. -/
def ensure (SEED : Nat) (s : ObfuscatedStringState × Nat) :
    ObfuscatedStringState × Nat :=
  if s.1.dec then s
  else ({ s.1 with decrypted := DecryptString SEED s.1.encrypted, dec := true }, s.2 + 1)

/-- The four public accessors: implicit `std::string` conversion, `c_str()`,
`length()` and `operator<<`; each calls `ensure()` first and then reads
`decrypted_`. -/
inductive Accessor where
  | convert
  | cstr
  | len
  | stream

/-- What each accessor returns, as a function of the cached plaintext:
`length()` returns its length, the others return (a view of) the bytes. -/
def accessResult : Accessor → List Nat → List Nat ⊕ Nat
  | Accessor.len, d => Sum.inr d.length
  | _, d => Sum.inl d

/-- Run a sequence of accessor calls on one instance, recording each returned
value and threading the state and the decode counter. -/
def runAccessors (SEED : Nat) : List Accessor → ObfuscatedStringState × Nat →
    List (List Nat ⊕ Nat) × (ObfuscatedStringState × Nat)
  | [], s => ([], s)
  | a :: as, s =>
    let s' := ensure SEED s
    let r := runAccessors SEED as s'
    (accessResult a s'.1.decrypted :: r.1, r.2)

/-- The destructor: `if (dec_) std::fill(decrypted_.begin(), decrypted_.end(), 0)`. -/
def destruct (s : ObfuscatedStringState) : ObfuscatedStringState :=
  if s.dec then { s with decrypted := s.decrypted.map (fun _ => 0) } else s

end StringObfuscator

/-! ## `Junk.h`: seed derivation and dispatcher plan -/

namespace junk_detail

/-- `rotl`: `(x << (r & 31)) | (x >> ((32 - r) & 31))` on `uint32_t`. -/
def rotl (x r : Nat) : Nat :=
  ((x <<< (r % 32)) ||| (x >>> ((32 - r % 32) % 32))) % 4294967296

/-- `rotr`: `(x >> (r & 31)) | (x << ((32 - r) & 31))` on `uint32_t`. -/
def rotr (x r : Nat) : Nat :=
  ((x >>> (r % 32)) ||| (x <<< ((32 - r % 32) % 32))) % 4294967296

/-- `xorshift32`: `x ^= x << 13; x ^= x >> 17; x ^= x << 5`. -/
def xorshift32 (x : Nat) : Nat :=
  let x1 := (x ^^^ (x <<< 13)) % 4294967296
  let x2 := (x1 ^^^ (x1 >>> 17)) % 4294967296
  (x2 ^^^ (x2 <<< 5)) % 4294967296

/-- `junk_detail::mix32` (Weyl-ish mix). -/
def mix32 (x : Nat) : Nat :=
  let a := x ^^^ 0x9E3779B9
  let b := xorshift32 ((a + 0x85EBCA6B) % 4294967296)
  let c := ((rotl (b ^^^ 0xC2B2AE35) 17) * 0x27D4EB2D) % 4294967296
  c ^^^ rotr c 15

/-- `site_seed<Line, Ctr>::value`, with the `tu_seed()` build fingerprint
(derived from `__FILE__` / `__DATE__` / `__TIME__`, unknown at verification
time) abstracted as the parameter `tu`. -/
def site_seed (tu Line Ctr : Nat) : Nat :=
  mix32 ((((Line * 1664525) % 4294967296) ^^^
    ((Ctr * 1013904223) % 4294967296)) ^^^ (tu % 4294967296))

/-- `S0` of `emit<Line, Ctr>`. -/
def S0v (tu Line Ctr : Nat) : Nat := site_seed tu Line Ctr

/-- `S1 = mix32(S0 ^ 0x85EBCA6B)`. -/
def S1v (tu Line Ctr : Nat) : Nat := mix32 (S0v tu Line Ctr ^^^ 0x85EBCA6B)

/-- `S2 = mix32(S1 ^ 0xC2B2AE35)`. -/
def S2v (tu Line Ctr : Nat) : Nat := mix32 (S1v tu Line Ctr ^^^ 0xC2B2AE35)

/-- `r0_base = 1 + ((S0 >> 25) & 7)`. -/
def r0_base (tu Line Ctr : Nat) : Nat := 1 + ((S0v tu Line Ctr >>> 25) &&& 7)

/-- `r1_base = 2 + ((S1 >> 26) & 7)`. -/
def r1_base (tu Line Ctr : Nat) : Nat := 2 + ((S1v tu Line Ctr >>> 26) &&& 7)

/-- `repeats = 1 + ((S2 >> 28) & 3)`. -/
def repeats (tu Line Ctr : Nat) : Nat := 1 + ((S2v tu Line Ctr >>> 28) &&& 3)

/-- `sec_mask = (S0 ^ (S1 << 1) ^ (S2 << 2)) | 0x1`. -/
def sec_mask (tu Line Ctr : Nat) : Nat :=
  ((S0v tu Line Ctr ^^^ ((S1v tu Line Ctr <<< 1) % 4294967296)) ^^^
    ((S2v tu Line Ctr <<< 2) % 4294967296)) ||| 1

/-- `Si = mix32(S0 + i * 0x9E3779B9)`, the per-iteration sub-seed. -/
def SiAt (tu Line Ctr i : Nat) : Nat :=
  mix32 ((S0v tu Line Ctr + i * 0x9E3779B9) % 4294967296)

/-- The `sel` argument passed to `emit_core` in iteration `i`:
`S0 ^ S1 ^ S2 ^ (Si << 3)`. -/
def coreSelAt (tu Line Ctr i : Nat) : Nat :=
  ((S0v tu Line Ctr ^^^ S1v tu Line Ctr) ^^^ S2v tu Line Ctr) ^^^
    ((SiAt tu Line Ctr i <<< 3) % 4294967296)

/-- The switch of `emit_core` dispatches on `sel & 7` (8 branches). -/
def emit_coreBranch (sel : Nat) : Nat := sel &&& 7

/-- One pattern-block invocation, with the arguments it receives. -/
inductive JEvent where
  | core (S r0 r1 sel : Nat)
  | smallVec (s : Nat)
  | ptrJiggle (s : Nat)
  | fpMix (s n : Nat)
  | arithInt (s n : Nat)

def isCore : JEvent → Bool
  | JEvent.core .. => true
  | _ => false

/-- The secondary patterns fired inside `emit`'s repeat loop. -/
def isSecondary : JEvent → Bool
  | JEvent.smallVec _ => true
  | JEvent.ptrJiggle _ => true
  | JEvent.fpMix .. => true
  | _ => false

/-- The pattern-block invocations of one iteration of `emit`'s repeat loop:
`emit_core` plus the 0–3 secondaries enabled by `sec_mask`. -/
def iterEvents (tu Line Ctr i : Nat) : List JEvent :=
  let Si := SiAt tu Line Ctr i
  [JEvent.core Si (r0_base tu Line Ctr + ((Si >>> 21) &&& 3))
      (r1_base tu Line Ctr + ((Si >>> 23) &&& 3)) (coreSelAt tu Line Ctr i)]
  ++ (if sec_mask tu Line Ctr &&& (1 <<< (i % 8)) ≠ 0
      then [JEvent.smallVec (Si ^^^ 0xA5A5A5A5)] else [])
  ++ (if sec_mask tu Line Ctr &&& (1 <<< ((i + 3) % 8)) ≠ 0
      then [JEvent.ptrJiggle (Si ^^^ 0x7F4A7C15)] else [])
  ++ (if sec_mask tu Line Ctr &&& (1 <<< ((i + 5) % 8)) ≠ 0
      then [JEvent.fpMix (Si ^^^ 0xC3ECEB5D) (1 + (Si &&& 3))] else [])

/-- The full invocation trace of `emit<Line, Ctr>`. -/
def emitEvents (tu Line Ctr : Nat) : List JEvent :=
  (List.range (repeats tu Line Ctr)).flatMap (iterEvents tu Line Ctr)

/-- `extra = 1 + ((Sx >> 22) & 7)` of `emit_heavy` (`Sx` is the site seed). -/
def extraCount (tu Line Ctr : Nat) : Nat := 1 + ((S0v tu Line Ctr >>> 22) &&& 7)

/-- `Sk = mix32(Sx + k * 0x27D4EB2D)`. -/
def SkAt (tu Line Ctr k : Nat) : Nat :=
  mix32 ((S0v tu Line Ctr + k * 0x27D4EB2D) % 4294967296)

/-- One iteration of `emit_heavy`'s extra loop: an `emit_core` invocation,
plus `p_arith_int` when bit 14 of `Sk` is set. -/
def heavyIterEvents (tu Line Ctr k : Nat) : List JEvent :=
  let Sk := SkAt tu Line Ctr k
  [JEvent.core Sk (1 + ((Sk >>> 20) &&& 7)) (2 + ((Sk >>> 23) &&& 7))
      ((Sk ^^^ ((S0v tu Line Ctr <<< 1) % 4294967296)) ^^^ 0xDEADBEEF)]
  ++ (if Sk &&& 0x4000 ≠ 0
      then [JEvent.arithInt (Sk ^^^ 0x12345678) (2 + ((Sk >>> 17) &&& 3))] else [])

/-- The full invocation trace of `emit_heavy<Line, Ctr>`: the normal `emit`
followed by the extra cores. -/
def emitHeavyEvents (tu Line Ctr : Nat) : List JEvent :=
  emitEvents tu Line Ctr ++
    (List.range (extraCount tu Line Ctr)).flatMap (heavyIterEvents tu Line Ctr)

end junk_detail

theorem nth_eq_getElem : ∀ (l : List Nat) (i : Nat) (h : i < l.length), nth l i = l[i]
  | _ :: _, 0, _ => rfl
  | _ :: cs, n + 1, h => nth_eq_getElem cs n (Nat.lt_of_succ_lt_succ h)

theorem nth_mem (l : List Nat) (i : Nat) (h : i < l.length) : nth l i ∈ l := by
  rw [nth_eq_getElem l i h]
  exact List.getElem_mem h

theorem nth_map (f : Nat → Nat) : ∀ (l : List Nat) (i : Nat), i < l.length →
    nth (l.map f) i = f (nth l i)
  | _ :: _, 0, _ => rfl
  | _ :: cs, n + 1, h => nth_map f cs n (Nat.lt_of_succ_lt_succ h)

theorem nth_range (n i : Nat) (h : i < n) : nth (List.range n) i = i := by
  rw [nth_eq_getElem _ _ (by simpa using h)]
  exact List.getElem_range i (by simpa using h)

theorem nth_set_self : ∀ (l : List Nat) (a v : Nat), a < l.length →
    nth (l.set a v) a = v
  | _ :: _, 0, _, _ => rfl
  | _ :: cs, n + 1, v, h => nth_set_self cs n v (Nat.lt_of_succ_lt_succ h)

theorem nth_set_ne : ∀ (l : List Nat) (a b v : Nat), a ≠ b →
    nth (l.set a v) b = nth l b
  | [], _, _, _, _ => rfl
  | _ :: _, 0, 0, _, h => absurd rfl h
  | _ :: _, 0, _ + 1, _, _ => rfl
  | _ :: _, _ + 1, 0, _, _ => rfl
  | _ :: cs, a + 1, b + 1, v, h =>
    nth_set_ne cs a b v (fun e => h (congrArg Nat.succ e))

theorem list_ext_nth (l₁ l₂ : List Nat) (hlen : l₁.length = l₂.length)
    (hval : ∀ k, k < l₁.length → nth l₁ k = nth l₂ k) : l₁ = l₂ := by
  induction l₁ generalizing l₂ with
  | nil =>
    cases l₂ with
    | nil => rfl
    | cons b bs => simp at hlen
  | cons a as ih =>
    cases l₂ with
    | nil => simp at hlen
    | cons b bs =>
      have h0 : a = b := hval 0 (Nat.succ_pos _)
      have ht : as = bs := by
        refine ih bs (Nat.succ_injective (by simpa using hlen)) ?_
        intro k hk
        exact hval (k + 1) (Nat.succ_lt_succ hk)
      rw [h0, ht]

theorem length_mapIdxFrom (f : Nat → Nat → Nat) :
    ∀ (k : Nat) (l : List Nat), (mapIdxFrom f k l).length = l.length
  | _, [] => rfl
  | k, _ :: cs => by simp [mapIdxFrom, length_mapIdxFrom f (k + 1) cs]

theorem mapIdxFrom_roundtrip (f g : Nat → Nat → Nat)
    (hinv : ∀ i c, c < 256 → g i (f i c) = c) :
    ∀ (k : Nat) (l : List Nat), Bytes8 l → mapIdxFrom g k (mapIdxFrom f k l) = l
  | _, [], _ => rfl
  | k, c :: cs, hb => by
    have hc : c < 256 := hb c (List.mem_cons_self c cs)
    have hcs : Bytes8 cs := fun x hx => hb x (List.mem_cons_of_mem c hx)
    simp [mapIdxFrom, hinv k c hc, mapIdxFrom_roundtrip f g hinv (k + 1) cs hcs]

theorem mapIdxFrom_bytes (f : Nat → Nat → Nat)
    (hf : ∀ i c, c < 256 → f i c < 256) :
    ∀ (k : Nat) (l : List Nat), Bytes8 l → Bytes8 (mapIdxFrom f k l)
  | _, [], _ => by intro c hc; simp [mapIdxFrom] at hc
  | k, c :: cs, hb => by
    intro x hx
    simp only [mapIdxFrom, List.mem_cons] at hx
    rcases hx with h | h
    · subst h; exact hf k c (hb c (List.mem_cons_self c cs))
    · exact mapIdxFrom_bytes f hf (k + 1) cs
        (fun y hy => hb y (List.mem_cons_of_mem c hy)) x h

theorem map_roundtrip (f g : Nat → Nat)
    (hinv : ∀ c, c < 256 → g (f c) = c) :
    ∀ (l : List Nat), Bytes8 l → (l.map f).map g = l
  | [], _ => rfl
  | c :: cs, hb => by
    have hc : c < 256 := hb c (List.mem_cons_self c cs)
    have hcs : Bytes8 cs := fun x hx => hb x (List.mem_cons_of_mem c hx)
    simp [hinv c hc, map_roundtrip f g hinv cs hcs]

theorem map_bytes (f : Nat → Nat) (hf : ∀ c, c < 256 → f c < 256)
    (l : List Nat) (hb : Bytes8 l) : Bytes8 (l.map f) := by
  intro x hx
  rcases List.mem_map.mp hx with ⟨c, hc, rfl⟩
  exact hf c (hb c hc)

/-! basic facts about the 8-bit rotations -/

theorem rotl8_lt (v r : Nat) : StringObfuscator.rotl8 v r < 256 :=
  Nat.mod_lt _ (by decide)

theorem rotr8_lt (v r : Nat) : StringObfuscator.rotr8 v r < 256 :=
  Nat.mod_lt _ (by decide)

theorem rotl8_mod8 (v r : Nat) :
    StringObfuscator.rotl8 v (r % 8) = StringObfuscator.rotl8 v r := by
  unfold StringObfuscator.rotl8
  rw [Nat.mod_mod_of_dvd r (Nat.dvd_refl 8)]

theorem rotr8_mod8 (v r : Nat) :
    StringObfuscator.rotr8 v (r % 8) = StringObfuscator.rotr8 v r := by
  unfold StringObfuscator.rotr8
  rw [Nat.mod_mod_of_dvd r (Nat.dvd_refl 8)]

theorem rotr8_rotl8_fin : ∀ (v : Fin 256) (s : Fin 8),
    StringObfuscator.rotr8 (StringObfuscator.rotl8 v.val s.val) s.val = v.val := by
  decide

theorem rotl8_rotr8_fin : ∀ (v : Fin 256) (s : Fin 8),
    StringObfuscator.rotl8 (StringObfuscator.rotr8 v.val s.val) s.val = v.val := by
  decide

theorem rotr8_rotl8 (v r : Nat) (hv : v < 256) :
    StringObfuscator.rotr8 (StringObfuscator.rotl8 v r) r = v := by
  rw [← rotl8_mod8, ← rotr8_mod8]
  exact rotr8_rotl8_fin ⟨v, hv⟩ ⟨r % 8, Nat.mod_lt _ (by decide)⟩

theorem rotl8_rotr8 (v r : Nat) (hv : v < 256) :
    StringObfuscator.rotl8 (StringObfuscator.rotr8 v r) r = v := by
  rw [← rotl8_mod8, ← rotr8_mod8]
  exact rotl8_rotr8_fin ⟨v, hv⟩ ⟨r % 8, Nat.mod_lt _ (by decide)⟩

/-! ## XOR helper facts -/

theorem xor_unmix (a u t : Nat) : (((a ^^^ u) ^^^ t) ^^^ u) ^^^ t = a := by
  apply Nat.eq_of_testBit_eq
  intro i
  simp only [Nat.testBit_xor]
  cases a.testBit i <;> cases u.testBit i <;> cases t.testBit i <;> rfl

theorem xor_lt_256 {x y : Nat} (hx : x < 256) (hy : y < 256) : x ^^^ y < 256 := by
  have h := Nat.xor_lt_two_pow (n := 8) (by simpa using hx) (by simpa using hy)
  simpa using h

/-! ## Swap-schedule machinery for Layer 3 -/

namespace StringObfuscator

theorem applySwaps_nil (l : List Nat) : applySwaps [] l = l := rfl

theorem applySwaps_cons (p : Nat × Nat) (ps : List (Nat × Nat)) (l : List Nat) :
    applySwaps (p :: ps) l = applySwaps ps (swapL l p.1 p.2) := rfl

theorem length_swapL (l : List Nat) (a b : Nat) : (swapL l a b).length = l.length := by
  simp [swapL]

theorem length_applySwaps : ∀ (ps : List (Nat × Nat)) (l : List Nat),
    (applySwaps ps l).length = l.length
  | [], _ => rfl
  | p :: ps, l => by
    rw [applySwaps_cons, length_applySwaps ps, length_swapL]

/-- Pulling the element at position `j` to the front while writing `x` into
position `j` is a permutation of pushing `x` onto the front. -/
theorem cons_set_perm : ∀ (xs : List Nat) (j x : Nat), j < xs.length →
    List.Perm (nth xs j :: xs.set j x) (x :: xs)
  | y :: ys, 0, x, _ => by
    simpa [nth] using List.Perm.swap x y ys
  | y :: ys, j + 1, x, h => by
    have ih := cons_set_perm ys j x (Nat.lt_of_succ_lt_succ h)
    simp only [nth, List.set_cons_succ]
    exact ((List.Perm.swap y (nth ys j) (ys.set j x)).trans (ih.cons y)).trans
      (List.Perm.swap x y ys)

theorem swapL_perm : ∀ (l : List Nat) (a b : Nat), a < l.length → b < l.length →
    List.Perm (swapL l a b) l
  | x :: xs, 0, 0, _, _ => by
    simp [swapL, nth]
  | x :: xs, 0, b + 1, _, hb => by
    simp only [swapL, nth, List.set_cons_zero, List.set_cons_succ]
    exact cons_set_perm xs b x (Nat.lt_of_succ_lt_succ hb)
  | x :: xs, a + 1, 0, ha, _ => by
    simp only [swapL, nth, List.set_cons_zero, List.set_cons_succ]
    exact cons_set_perm xs a x (Nat.lt_of_succ_lt_succ ha)
  | x :: xs, a + 1, b + 1, ha, hb => by
    simp only [swapL, nth, List.set_cons_succ]
    exact List.Perm.cons x
      (swapL_perm xs a b (Nat.lt_of_succ_lt_succ ha) (Nat.lt_of_succ_lt_succ hb))

theorem applySwaps_perm : ∀ (ps : List (Nat × Nat)) (l : List Nat),
    (∀ p ∈ ps, p.1 < l.length ∧ p.2 < l.length) → List.Perm (applySwaps ps l) l
  | [], _, _ => List.Perm.refl _
  | p :: ps, l, hb => by
    rw [applySwaps_cons]
    have hp := hb p (List.mem_cons_self p ps)
    have hsw : List.Perm (swapL l p.1 p.2) l := swapL_perm l p.1 p.2 hp.1 hp.2
    have htail : ∀ q ∈ ps, q.1 < (swapL l p.1 p.2).length ∧ q.2 < (swapL l p.1 p.2).length := by
      intro q hq
      rw [length_swapL]
      exact hb q (List.mem_cons_of_mem p hq)
    exact (applySwaps_perm ps (swapL l p.1 p.2) htail).trans hsw

theorem swapL_map (l : List Nat) (f : Nat → Nat) (a b : Nat)
    (ha : a < l.length) (hb : b < l.length) :
    swapL (l.map f) a b = (swapL l a b).map f := by
  unfold swapL
  rw [nth_map f l b hb, nth_map f l a ha]
  rw [List.set_map, List.set_map]

theorem applySwaps_map : ∀ (ps : List (Nat × Nat)) (l : List Nat) (f : Nat → Nat),
    (∀ p ∈ ps, p.1 < l.length ∧ p.2 < l.length) →
    applySwaps ps (l.map f) = (applySwaps ps l).map f
  | [], _, _, _ => rfl
  | p :: ps, l, f, hb => by
    have hp := hb p (List.mem_cons_self p ps)
    rw [applySwaps_cons, applySwaps_cons, swapL_map l f p.1 p.2 hp.1 hp.2]
    refine applySwaps_map ps (swapL l p.1 p.2) f ?_
    intro q hq
    rw [length_swapL]
    exact hb q (List.mem_cons_of_mem p hq)

theorem swapSeq_bounds (K N : Nat) : ∀ p ∈ swapSeq K N, p.1 < N ∧ p.2 < N := by
  intro p hp
  rcases List.mem_map.mp hp with ⟨i, hi, rfl⟩
  have hiN : i < N := by
    have : i ∈ List.range N := List.mem_of_mem_drop (List.mem_reverse.mp hi)
    exact List.mem_range.mp this
  refine ⟨hiN, ?_⟩
  have hj : jswap K i < i + 1 := Nat.mod_lt _ (Nat.succ_pos i)
  omega

end StringObfuscator

theorem range_map_nth (l : List Nat) :
    (List.range l.length).map (fun k => nth l k) = l := by
  refine list_ext_nth _ _ (by simp) ?_
  intro k hk
  have hk' : k < l.length := by simpa using hk
  rw [nth_map _ _ k (by simpa using hk'), nth_range _ _ hk']

namespace StringObfuscator

/-- The shuffled buffer is the index table applied to the input:
`out[k] = in[idx[k]]`. -/
theorem applySwaps_eq_map_idx (K : Nat) (l : List Nat) :
    applySwaps (swapSeq K l.length) l
      = (applySwaps (swapSeq K l.length) (List.range l.length)).map (fun k => nth l k) := by
  have hb : ∀ p ∈ swapSeq K l.length,
      p.1 < (List.range l.length).length ∧ p.2 < (List.range l.length).length := by
    intro p hp
    have h := swapSeq_bounds K l.length p hp
    simpa using h
  have h := applySwaps_map (swapSeq K l.length) (List.range l.length)
    (fun k => nth l k) hb
  rw [range_map_nth l] at h
  exact h

end StringObfuscator

/-! ## The unshuffle scatter recovers the pre-shuffle buffer -/

theorem scatterFold_length (g d : Nat → Nat) : ∀ (is : List Nat) (acc : List Nat),
    (is.foldl (fun a i => a.set (g i) (d i)) acc).length = acc.length
  | [], _ => rfl
  | i :: is, acc => by
    rw [List.foldl_cons, scatterFold_length g d is, List.length_set]

theorem scatterFold_untouched (g d : Nat → Nat) :
    ∀ (is : List Nat) (acc : List Nat) (k : Nat), (∀ i ∈ is, g i ≠ k) →
    nth (is.foldl (fun a i => a.set (g i) (d i)) acc) k = nth acc k
  | [], _, _, _ => rfl
  | i :: is, acc, k, hne => by
    rw [List.foldl_cons,
      scatterFold_untouched g d is _ k (fun j hj => hne j (List.mem_cons_of_mem i hj)),
      nth_set_ne acc (g i) k _ (hne i (List.mem_cons_self i is))]

namespace StringObfuscator

theorem unshuffle_applySwaps (K : Nat) (l : List Nat) :
    unshuffle K (applySwaps (swapSeq K l.length) l) = l := by
  set N := l.length with hN
  set ps := swapSeq K N with hps
  set data := applySwaps ps l with hdata
  set idx := applySwaps ps (List.range N) with hidx
  have hdlen : data.length = N := by rw [hdata, length_applySwaps]
  have hidxlen : idx.length = N := by rw [hidx, length_applySwaps]; simp
  have hbounds : ∀ p ∈ ps, p.1 < (List.range N).length ∧ p.2 < (List.range N).length := by
    intro p hp
    have h := swapSeq_bounds K N p hp
    simpa using h
  have hperm : List.Perm idx (List.range N) :=
    applySwaps_perm ps (List.range N) hbounds
  have hnodup : idx.Nodup := hperm.nodup_iff.mpr (List.nodup_range N)
  have hvals : ∀ i, i < N → nth idx i < N := by
    intro i hi
    have hmem : nth idx i ∈ idx := nth_mem idx i (by rwa [hidxlen])
    exact List.mem_range.mp (hperm.mem_iff.mp hmem)
  have hgather : data = idx.map (fun k => nth l k) := by
    rw [hdata, hidx, hps, hN]
    exact applySwaps_eq_map_idx K l
  -- the scatter loop of `unshuffle`
  have hmain : ∀ k, k < N →
      nth ((List.range N).foldl (fun acc i => acc.set (nth idx i) (nth data i))
        (List.replicate N 0)) k = nth l k := by
    intro k hk
    -- the unique loop index writing position k
    have hkidx : k ∈ idx := hperm.mem_iff.mpr (List.mem_range.mpr hk)
    rcases List.getElem_of_mem hkidx with ⟨i, hi, hik⟩
    have hiN : i < N := by rwa [hidxlen] at hi
    have hnthik : nth idx i = k := by rw [nth_eq_getElem idx i hi, hik]
    have hsplit : List.range N
        = (List.range i ++ [i]) ++ (List.range (N - (i + 1))).map ((i + 1) + ·) := by
      rw [← List.range_succ, ← List.range_add]
      congr 1
      omega
    rw [hsplit, List.foldl_append, List.foldl_append]
    have hlenA : ((List.range i).foldl (fun acc j => acc.set (nth idx j) (nth data j))
        (List.replicate N 0)).length = N := by
      rw [scatterFold_length (fun j => nth idx j) (fun j => nth data j)]
      simp
    rw [scatterFold_untouched (fun j => nth idx j) (fun j => nth data j)]
    · simp only [List.foldl_cons, List.foldl_nil]
      rw [hnthik, nth_set_self _ k _ (by rwa [hlenA]), hgather,
        nth_map _ idx i (by rwa [hidxlen]), hnthik]
    · intro b hb
      rcases List.mem_map.mp hb with ⟨t, ht, rfl⟩
      have htN : t < N - (i + 1) := List.mem_range.mp ht
      have hbN : (i + 1) + t < N := by omega
      have hne : i ≠ (i + 1) + t := by omega
      have : nth idx i ≠ nth idx ((i + 1) + t) := by
        rw [nth_eq_getElem idx i hi, nth_eq_getElem idx _ (by rwa [hidxlen])]
        have hpw := (List.pairwise_iff_getElem.mp hnodup) i ((i + 1) + t)
          hi (by rwa [hidxlen]) (by omega)
        exact hpw
      rw [hnthik] at this
      exact fun he => this he.symm
  have hlen : ((List.range N).foldl (fun acc i => acc.set (nth idx i) (nth data i))
      (List.replicate N 0)).length = l.length := by
    rw [scatterFold_length (fun j => nth idx j) (fun j => nth data j)]
    simp [hN]
  show (List.range data.length).foldl
      (fun acc i => acc.set (nth (applySwaps (swapSeq K data.length) (List.range data.length)) i)
        (nth data i)) (List.replicate data.length 0) = l
  rw [hdlen]
  refine list_ext_nth _ l ?_ ?_
  · exact hlen
  · intro k hk
    rw [hlen] at hk
    exact hmain k hk

/-! ## Pointwise inverses of the byte transforms -/

theorem l1_roundtrip_byte (K i c : Nat) : l1dec K i (l1enc K i c) = c := by
  unfold l1enc l1dec
  rw [Nat.xor_cancel_right, Nat.xor_cancel_right]

theorem l2_roundtrip_byte (K i c : Nat) (hc : c < 256) : l2dec K i (l2enc K i c) = c := by
  unfold l2enc l2dec
  rw [Nat.xor_cancel_right]
  exact rotr8_rotl8 c _ hc

theorem l3affine_roundtrip_fin : ∀ c : Fin 256, l3affineInv (l3affine c.val) = c.val := by
  decide

theorem l3affine_roundtrip (c : Nat) (hc : c < 256) : l3affineInv (l3affine c) = c :=
  l3affine_roundtrip_fin ⟨c, hc⟩

theorem l4xor_roundtrip_byte (K i c : Nat) : l4xor K i (l4xor K i c) = c := by
  unfold l4xor
  rw [Nat.xor_cancel_right]

theorem l4not_roundtrip (c : Nat) (hc : c < 256) : l4not (l4not c) = c := by
  unfold l4not
  omega

theorem l5_affine_fin : ∀ v : Fin 256,
    mul197_inv (((mul197 v.val + 101) % 256 + 155) % 256) = v.val := by
  decide

theorem l5_roundtrip_byte (i v : Nat) (hv : v < 256) : l5dec i (l5enc i v) = v := by
  unfold l5enc l5dec
  rw [xor_unmix]
  exact l5_affine_fin ⟨v, hv⟩

/-! ## Byte bounds of the layer outputs -/

theorem l1enc_lt (K i c : Nat) (hc : c < 256) : l1enc K i c < 256 := by
  unfold l1enc
  have h1 : (key1 K >>> ((i * 8) % 56)) &&& 0xFF < 256 :=
    Nat.lt_succ_of_le Nat.and_le_right
  have h2 : (key2 K >>> ((i * 3) % 56)) &&& 0xFF < 256 :=
    Nat.lt_succ_of_le Nat.and_le_right
  exact xor_lt_256 (xor_lt_256 hc h1) h2

theorem l2enc_lt (K i c : Nat) : l2enc K i c < 256 := by
  unfold l2enc
  refine xor_lt_256 (rotl8_lt _ _) ?_
  split <;> decide

theorem l3affine_lt (c : Nat) : l3affine c < 256 := by
  unfold l3affine
  exact xor_lt_256 (Nat.mod_lt _ (by decide)) (by decide)

theorem l4xor_lt (K i c : Nat) (hc : c < 256) : l4xor K i c < 256 := by
  unfold l4xor
  exact xor_lt_256 hc (Nat.mod_lt _ (by decide))

theorem l4not_lt (c : Nat) : l4not c < 256 := by
  unfold l4not
  omega

theorem l5enc_lt (i v : Nat) : l5enc i v < 256 := by
  unfold l5enc
  exact xor_lt_256 (xor_lt_256 (Nat.mod_lt _ (by decide)) (by decide))
    (Nat.mod_lt _ (by decide))

theorem bytes8_applySwaps (K : Nat) (l : List Nat) (hb : Bytes8 l) :
    Bytes8 (applySwaps (swapSeq K l.length) l) := by
  intro c hc
  have hperm : List.Perm (applySwaps (swapSeq K l.length) l) l := by
    refine applySwaps_perm _ _ ?_
    exact swapSeq_bounds K l.length
  exact hb c (hperm.mem_iff.mp hc)

theorem bytes8_Layer1 (K : Nat) (l : List Nat) (hb : Bytes8 l) :
    Bytes8 (Layer1_XOR K l) :=
  mapIdxFrom_bytes (l1enc K) (l1enc_lt K) 0 l hb

theorem bytes8_Layer2 (K : Nat) (l : List Nat) (hb : Bytes8 l) :
    Bytes8 (Layer2_BitRotate K l) :=
  mapIdxFrom_bytes (l2enc K) (fun i c _ => l2enc_lt K i c) 0 l hb

theorem bytes8_Layer3 (K : Nat) (l : List Nat) (hb : Bytes8 l) :
    Bytes8 (Layer3_Shuffle K l) :=
  map_bytes l3affine (fun c _ => l3affine_lt c) _ (bytes8_applySwaps K l hb)

theorem bytes8_Layer4 (K : Nat) (l : List Nat) (hb : Bytes8 l) :
    Bytes8 (Layer4_MultiPass K l) :=
  map_bytes _ (fun c _ => rotr8_lt c 2)
    (((mapIdxFrom (l4xor K) 0 l).map l4not))
    (map_bytes l4not (fun c _ => l4not_lt c) _
      (mapIdxFrom_bytes (l4xor K) (l4xor_lt K) 0 l hb))

/-! ## Buffer lengths are preserved -/

theorem length_Layer1 (K : Nat) (l : List Nat) : (Layer1_XOR K l).length = l.length :=
  length_mapIdxFrom _ 0 l

theorem length_Layer2 (K : Nat) (l : List Nat) : (Layer2_BitRotate K l).length = l.length :=
  length_mapIdxFrom _ 0 l

theorem length_Layer3 (K : Nat) (l : List Nat) : (Layer3_Shuffle K l).length = l.length := by
  unfold Layer3_Shuffle
  rw [List.length_map, length_applySwaps]

theorem length_Layer4 (K : Nat) (l : List Nat) : (Layer4_MultiPass K l).length = l.length := by
  unfold Layer4_MultiPass
  rw [List.length_map, List.length_map, length_mapIdxFrom]

theorem length_Layer5Enc (K : Nat) (l : List Nat) :
    (Layer5_AsciiBreaker_Enc K l).length = l.length :=
  length_mapIdxFrom _ 0 l

theorem length_ObfuscateString (SEED : Nat) (l : List Nat) :
    (ObfuscateString SEED l).length = l.length := by
  unfold ObfuscateString
  rw [length_Layer5Enc, length_Layer4, length_Layer3, length_Layer2, length_Layer1]

/-! ## List-level layer roundtrips -/

theorem dec5_enc5 (K K' : Nat) (x : List Nat) (hb : Bytes8 x) :
    Layer5_AsciiBreaker_Dec K' (Layer5_AsciiBreaker_Enc K x) = x :=
  mapIdxFrom_roundtrip l5enc l5dec l5_roundtrip_byte 0 x hb

theorem dec4_enc4 (K : Nat) (x : List Nat) (hb : Bytes8 x) :
    mapIdxFrom (l4xor K) 0
      (((Layer4_MultiPass K x).map (fun c => rotl8 c 2)).map l4not) = x := by
  unfold Layer4_MultiPass
  rw [map_roundtrip _ _ (fun c hc => rotl8_rotr8 c 2 hc) _
    (map_bytes l4not (fun c _ => l4not_lt c) _
      (mapIdxFrom_bytes (l4xor K) (l4xor_lt K) 0 x hb))]
  rw [map_roundtrip l4not l4not l4not_roundtrip _
    (mapIdxFrom_bytes (l4xor K) (l4xor_lt K) 0 x hb)]
  exact mapIdxFrom_roundtrip (l4xor K) (l4xor K)
    (fun i c _ => l4xor_roundtrip_byte K i c) 0 x hb

theorem dec3_enc3 (K : Nat) (x : List Nat) (hb : Bytes8 x) :
    unshuffle K ((Layer3_Shuffle K x).map l3affineInv) = x := by
  unfold Layer3_Shuffle
  rw [map_roundtrip l3affine l3affineInv l3affine_roundtrip _
    (bytes8_applySwaps K x hb)]
  exact unshuffle_applySwaps K x

theorem dec2_enc2 (K : Nat) (x : List Nat) (hb : Bytes8 x) :
    mapIdxFrom (l2dec K) 0 (Layer2_BitRotate K x) = x :=
  mapIdxFrom_roundtrip (l2enc K) (l2dec K) (l2_roundtrip_byte K) 0 x hb

theorem dec1_enc1 (K : Nat) (x : List Nat) (hb : Bytes8 x) :
    mapIdxFrom (l1dec K) 0 (Layer1_XOR K x) = x :=
  mapIdxFrom_roundtrip (l1enc K) (l1dec K)
    (fun i c _ => l1_roundtrip_byte K i c) 0 x hb

end StringObfuscator

open StringObfuscator

/-- C1: For every buffer and every seed, `DecryptString` applied to
`ObfuscateString` returns exactly the input bytes: the five encode layers
applied in order 1..5 are inverted by the decode routine in order 5..1.
(Stated for every buffer length, which subsumes every `N ≥ 1` including the
single-byte case.) -/
theorem C1_decrypt_obfuscate_roundtrip (SEED : Nat) (l : List Nat) (hb : Bytes8 l) :
    DecryptString SEED (ObfuscateString SEED l) = l := by
  have hlen := length_ObfuscateString SEED l
  have hb1 : Bytes8 (Layer1_XOR (obfKey SEED l.length) l) :=
    bytes8_Layer1 _ l hb
  have hb2 : Bytes8 (Layer2_BitRotate (obfKey SEED l.length)
      (Layer1_XOR (obfKey SEED l.length) l)) :=
    bytes8_Layer2 _ _ hb1
  have hb3 : Bytes8 (Layer3_Shuffle (obfKey SEED l.length)
      (Layer2_BitRotate (obfKey SEED l.length) (Layer1_XOR (obfKey SEED l.length) l))) :=
    bytes8_Layer3 _ _ hb2
  have hb4 : Bytes8 (Layer4_MultiPass (obfKey SEED l.length)
      (Layer3_Shuffle (obfKey SEED l.length)
        (Layer2_BitRotate (obfKey SEED l.length)
          (Layer1_XOR (obfKey SEED l.length) l)))) :=
    bytes8_Layer4 _ _ hb3
  simp only [DecryptString, hlen]
  simp only [ObfuscateString]
  rw [dec5_enc5 _ _ _ hb4, dec4_enc4 _ _ hb3, dec3_enc3 _ _ hb2, dec2_enc2 _ _ hb1]
  exact dec1_enc1 _ _ hb

/-- Witness for C1 at the single-byte buffer `[72]` with seed `5`. -/
theorem C1_decrypt_obfuscate_roundtrip_witness :
    Bytes8 [72] ∧ DecryptString 5 (ObfuscateString 5 [72]) = [72] :=
  ⟨by unfold Bytes8; decide,
    C1_decrypt_obfuscate_roundtrip 5 [72] (by unfold Bytes8; decide)⟩

/-! ## C2: the Layer 5 affine substitution and its modular inverse -/

theorem xor_mod_256 (a b : Nat) : (a ^^^ b) % 256 = (a % 256) ^^^ (b % 256) := by
  have h : (256 : Nat) = 2 ^ 8 := rfl
  rw [h]
  apply Nat.eq_of_testBit_eq
  intro i
  simp only [Nat.testBit_mod_two_pow, Nat.testBit_xor]
  cases hb : decide (i < 8) <;> simp [hb]

theorem l5enc_spec_formula (i v : Nat) :
    l5enc i v = ((v * 197 + 101) ^^^ 0xA5 ^^^ (i * 139)) % 256 := by
  unfold l5enc mul197
  rw [xor_mod_256, xor_mod_256]
  have h : (197 * v % 256 + 101) % 256 = (v * 197 + 101) % 256 := by
    rw [Nat.mul_comm v 197]
    omega
  rw [h]

/-- C2: Layer 5 encodes `enc = ((v*197 + 101) xor 0xA5 xor (i*139)) mod 256`;
`13` is the modular inverse of `197` mod 256, and the decode byte map recovers
every byte at every index, so `Layer5_AsciiBreaker_Dec` inverts
`Layer5_AsciiBreaker_Enc` position-wise for every buffer and every seed. -/
theorem C2_layer5_affine_inverse :
    (197 * 13) % 256 = 1 ∧
    (∀ i v : Nat, l5enc i v = ((v * 197 + 101) ^^^ 0xA5 ^^^ (i * 139)) % 256) ∧
    (∀ i v : Nat, v < 256 → l5dec i (l5enc i v) = v) ∧
    (∀ (SEED : Nat) (l : List Nat), Bytes8 l →
      Layer5_AsciiBreaker_Dec SEED (Layer5_AsciiBreaker_Enc SEED l) = l) := by
  refine ⟨by decide, l5enc_spec_formula, l5_roundtrip_byte, ?_⟩
  intro SEED l hb
  exact dec5_enc5 SEED SEED l hb

/-- Witness for C2 at byte `200`, index `3`, and the buffer `[1, 255]`. -/
theorem C2_layer5_affine_inverse_witness :
    l5dec 3 (l5enc 3 200) = 200 ∧
    Layer5_AsciiBreaker_Dec 7 (Layer5_AsciiBreaker_Enc 7 [1, 255]) = [1, 255] :=
  ⟨C2_layer5_affine_inverse.2.2.1 3 200 (by decide),
    C2_layer5_affine_inverse.2.2.2 7 [1, 255] (by unfold Bytes8; decide)⟩

/-! ## C3: the swap-index formula under 64-bit `size_t` arithmetic -/

/-- C3 fails as stated: the swap index `(size_t)SEED * (i + 1) % (i + 1)` is
computed with 64-bit wrap-around, so for `i + 1 = 3 * 2^31` (only reachable
with a buffer longer than `2^32`) and seed `2863311531` the product overflows
and the index is `2^31`, not `0`. -/
theorem C3_swap_index_counterexample :
    2863311531 < 4294967296 ∧ 1 ≤ 6442450943 ∧
    jswap 2863311531 6442450943 = 2147483648 ∧
    jswap 2863311531 6442450943 ≠ jswap 0 6442450943 :=
  ⟨by decide, by decide, by decide, by decide⟩

/-- C3 (amended): whenever the product cannot overflow — every `i` with
`i + 1 ≤ 2^32`, hence every buffer of length at most `2^32` — the swap index
is `0` for every 32-bit seed, so the whole of `Layer3_Shuffle` (its
permutation part in particular) is independent of the seed. -/
theorem C3_shuffle_seed_independent :
    (∀ K i : Nat, K < 4294967296 → i + 1 ≤ 4294967296 → jswap K i = 0) ∧
    (∀ (K1 K2 : Nat) (l : List Nat), K1 < 4294967296 → K2 < 4294967296 →
      l.length ≤ 4294967296 → Layer3_Shuffle K1 l = Layer3_Shuffle K2 l) := by
  have hj : ∀ K i : Nat, K < 4294967296 → i + 1 ≤ 4294967296 → jswap K i = 0 := by
    intro K i hK hi
    have hle : K * (i + 1) ≤ 4294967295 * 4294967296 :=
      Nat.mul_le_mul (Nat.le_of_lt_succ hK) hi
    have hlt : K * (i + 1) < 18446744073709551616 :=
      Nat.lt_of_le_of_lt hle (by decide)
    unfold jswap
    rw [Nat.mod_eq_of_lt hlt]
    exact Nat.mul_mod_left K (i + 1)
  refine ⟨hj, ?_⟩
  intro K1 K2 l h1 h2 hl
  have hseq : swapSeq K1 l.length = swapSeq K2 l.length := by
    unfold swapSeq
    refine List.map_congr_left ?_
    intro i hi
    have hiN : i < l.length :=
      List.mem_range.mp (List.mem_of_mem_drop (List.mem_reverse.mp hi))
    have hib : i + 1 ≤ 4294967296 := by omega
    rw [hj K1 i h1 hib, hj K2 i h2 hib]
  unfold Layer3_Shuffle
  rw [hseq]

/-- Witness for the amended C3 at seed `7`, index `3`, and at the pair of
seeds `1, 2` on the buffer `[10, 20, 30]`. -/
theorem C3_shuffle_seed_independent_witness :
    jswap 7 3 = 0 ∧ Layer3_Shuffle 1 [10, 20, 30] = Layer3_Shuffle 2 [10, 20, 30] :=
  ⟨C3_shuffle_seed_independent.1 7 3 (by decide) (by decide),
    C3_shuffle_seed_independent.2 1 2 [10, 20, 30] (by decide) (by decide) (by decide)⟩

/-! ## C9: `mix32` is a bijection on 32-bit words -/

theorem shiftLeft_xor_distrib (a b k : Nat) : (a ^^^ b) <<< k = (a <<< k) ^^^ (b <<< k) := by
  apply Nat.eq_of_testBit_eq
  intro i
  simp [Nat.testBit_shiftLeft, Nat.testBit_xor, Bool.and_xor_distrib_left]

theorem shiftRight_xor_distrib (a b k : Nat) : (a ^^^ b) >>> k = (a >>> k) ^^^ (b >>> k) := by
  apply Nat.eq_of_testBit_eq
  intro i
  simp [Nat.testBit_shiftRight, Nat.testBit_xor]

theorem xor_mod_u32 (a b : Nat) :
    (a ^^^ b) % 4294967296 = (a % 4294967296) ^^^ (b % 4294967296) := by
  have h : (4294967296 : Nat) = 2 ^ 32 := rfl
  rw [h]
  apply Nat.eq_of_testBit_eq
  intro i
  simp only [Nat.testBit_mod_two_pow, Nat.testBit_xor]
  cases hb : decide (i < 32) <;> simp [hb]

theorem mod_mod_u32 (a : Nat) : a % 4294967296 % 4294967296 = a % 4294967296 :=
  Nat.mod_mod_of_dvd a (Nat.dvd_refl _)

theorem shl_mod_u32 (a k : Nat) :
    ((a % 4294967296) <<< k) % 4294967296 = (a <<< k) % 4294967296 := by
  rw [Nat.shiftLeft_eq, Nat.shiftLeft_eq, Nat.mul_mod,
    Nat.mod_mod_of_dvd _ (Nat.dvd_refl _), ← Nat.mul_mod]

theorem shiftLeft_shiftLeft' (a m n : Nat) : (a <<< m) <<< n = a <<< (m + n) := by
  rw [Nat.shiftLeft_eq, Nat.shiftLeft_eq, Nat.shiftLeft_eq, Nat.pow_add, Nat.mul_assoc]

theorem shl_high_mod_u32 (a t : Nat) : (a <<< (32 + t)) % 4294967296 = 0 := by
  rw [Nat.shiftLeft_eq, Nat.pow_add, Nat.mul_comm (2 ^ 32) (2 ^ t), ← Nat.mul_assoc]
  exact Nat.mul_mod_left _ _

theorem shl39_mod_u32 (a : Nat) : (a <<< 39) % 4294967296 = 0 := by
  rw [show (39 : Nat) = 32 + 7 from rfl]
  exact shl_high_mod_u32 a 7

theorem shl35_mod_u32 (a : Nat) : (a <<< 35) % 4294967296 = 0 := by
  rw [show (35 : Nat) = 32 + 3 from rfl]
  exact shl_high_mod_u32 a 3

theorem nat_xor_left_comm (a b c : Nat) : a ^^^ (b ^^^ c) = b ^^^ (a ^^^ c) := by
  rw [← Nat.xor_assoc, Nat.xor_comm a b, Nat.xor_assoc]

theorem xsInvA_stepA (x : Nat) (hx : x < 4294967296) : xsInvA (xsStepA x) = x := by
  unfold xsInvA xsStepA
  simp only [shl_mod_u32, xor_mod_u32, mod_mod_u32, shiftLeft_xor_distrib,
    shiftLeft_shiftLeft']
  simp [Nat.xor_assoc, Nat.xor_comm, nat_xor_left_comm, Nat.xor_cancel_left,
    shl39_mod_u32, Nat.mod_eq_of_lt hx]

theorem xsInvC_stepC (x : Nat) (hx : x < 4294967296) : xsInvC (xsStepC x) = x := by
  unfold xsInvC xsStepC
  simp only [shl_mod_u32, xor_mod_u32, mod_mod_u32, shiftLeft_xor_distrib,
    shiftLeft_shiftLeft']
  simp [Nat.xor_assoc, Nat.xor_comm, nat_xor_left_comm, Nat.xor_cancel_left,
    shl35_mod_u32, Nat.mod_eq_of_lt hx]

theorem xsInvB_stepB (x : Nat) (hx : x < 4294967296) : xsInvB (xsStepB x) = x := by
  unfold xsInvB xsStepB
  have hsr : x >>> 17 ≤ x := by
    rw [Nat.shiftRight_eq_div_pow]
    exact Nat.div_le_self x _
  have hz : (x ^^^ (x >>> 17)) < 4294967296 := by
    have h : (4294967296 : Nat) = 2 ^ 32 := rfl
    rw [h]
    exact Nat.xor_lt_two_pow hx (Nat.lt_of_le_of_lt hsr hx)
  rw [Nat.mod_eq_of_lt hz, shiftRight_xor_distrib]
  have h34 : x >>> 17 >>> 17 = 0 := by
    rw [Nat.shiftRight_eq_div_pow, Nat.shiftRight_eq_div_pow, Nat.div_div_eq_div_mul]
    exact Nat.div_eq_of_lt (Nat.lt_of_lt_of_le hx (by decide))
  rw [h34]
  simp [Nat.xor_assoc, Nat.mod_eq_of_lt hx]

theorem xsStepA_lt (x : Nat) : xsStepA x < 4294967296 := Nat.mod_lt _ (by decide)

theorem xsStepB_lt (x : Nat) : xsStepB x < 4294967296 := Nat.mod_lt _ (by decide)

theorem mix32_lt (x : Nat) : mix32 x < 4294967296 := Nat.mod_lt _ (by decide)

theorem mix32_leftinv (x : Nat) (hx : x < 4294967296) :
    xsInvA (xsInvB (xsInvC (mix32 x))) = x := by
  unfold StringObfuscator.mix32
  rw [xsInvC_stepC _ (xsStepB_lt _), xsInvB_stepB _ (xsStepA_lt _), xsInvA_stepA _ hx]

theorem mix32_inj (x y : Nat) (hx : x < 4294967296) (hy : y < 4294967296)
    (h : mix32 x = mix32 y) : x = y := by
  have h' := congrArg (fun z => xsInvA (xsInvB (xsInvC z))) h
  simpa [mix32_leftinv x hx, mix32_leftinv y hy] using h'

/-- C9: `mix32` (the xorshift mixer used to derive every cipher key) is a
bijection on 32-bit words, `mix32 0 = 0`, and therefore the internal key
`K = mix32(SEED * 0x9E3779B1 + N)` is exactly `0` whenever
`SEED * 0x9E3779B1 + N ≡ 0 (mod 2^32)`. -/
theorem C9_mix32_bijection_zero_key :
    Function.Bijective (fun x : Fin 4294967296 =>
      (⟨mix32 x.val, mix32_lt x.val⟩ : Fin 4294967296)) ∧
    mix32 0 = 0 ∧
    (∀ SEED N : Nat, (SEED * 0x9E3779B1 + N) % 4294967296 = 0 →
      obfKey SEED N = 0) := by
  refine ⟨?_, by decide, ?_⟩
  · rw [← Finite.injective_iff_bijective]
    intro a b h
    have h' : mix32 a.val = mix32 b.val := congrArg Fin.val h
    exact Fin.ext (mix32_inj a.val b.val a.isLt b.isLt h')
  · intro SEED N h
    unfold StringObfuscator.obfKey
    rw [h]
    decide

/-- Witness for C9: `1 * 0x9E3779B1 + 1640531535 = 2^32`, so the derived key
for a seed of `1` and a buffer length of `1640531535` is exactly `0`. -/
theorem C9_mix32_bijection_zero_key_witness :
    (1 * 0x9E3779B1 + 1640531535) % 4294967296 = 0 ∧ obfKey 1 1640531535 = 0 :=
  ⟨by decide, C9_mix32_bijection_zero_key.2.2 1 1640531535 (by decide)⟩

namespace StringObfuscator

theorem ensure_decoded (SEED : Nat) (s : ObfuscatedStringState) (c : Nat)
    (h : s.dec = true) : ensure SEED (s, c) = (s, c) := by
  simp [ensure, h]

theorem runAccessors_decoded (SEED : Nat) :
    ∀ (as : List Accessor) (s : ObfuscatedStringState) (c : Nat), s.dec = true →
    runAccessors SEED as (s, c)
      = (as.map (fun a => accessResult a s.decrypted), (s, c))
  | [], _, _, _ => rfl
  | a :: as, s, c, h => by
    simp only [runAccessors, ensure_decoded SEED s c h,
      runAccessors_decoded SEED as s c h, List.map_cons]

/-- C6: starting from a freshly constructed instance, any nonempty sequence of
accessor calls runs the decode computation exactly once (the counter ends at
`1` and the cache flag is set), and every accessor call observes the one
decoded value `DecryptString SEED enc`. -/
theorem C6_lazy_decode_once (SEED : Nat) (enc : List Nat) (as : List Accessor)
    (hne : as ≠ []) :
    runAccessors SEED as (mkObfuscatedString enc, 0)
      = (as.map (fun a => accessResult a (DecryptString SEED enc)),
         ({ encrypted := enc, decrypted := DecryptString SEED enc, dec := true }, 1)) := by
  match as with
  | [] => exact absurd rfl hne
  | a :: as =>
    have hstep : ensure SEED (mkObfuscatedString enc, 0)
        = ({ encrypted := enc, decrypted := DecryptString SEED enc, dec := true }, 1) := by
      simp [ensure, mkObfuscatedString]
    simp only [runAccessors, hstep,
      runAccessors_decoded SEED as
        { encrypted := enc, decrypted := DecryptString SEED enc, dec := true } 1 rfl,
      List.map_cons]

/-- Witness for C6: one `c_str()` access on the literal `[65, 0]` with seed 3. -/
theorem C6_lazy_decode_once_witness :
    runAccessors 3 [Accessor.cstr] (mkObfuscatedString [65, 0], 0)
      = ([Sum.inl (DecryptString 3 [65, 0])],
         ({ encrypted := [65, 0], decrypted := DecryptString 3 [65, 0], dec := true }, 1)) :=
  C6_lazy_decode_once 3 [65, 0] [Accessor.cstr] (List.cons_ne_nil _ _)

/-- C8: if the instance was ever decoded, the destructor overwrites every byte
of the cached plaintext with zero (the cache becomes all-zero of the same
length); if it was never decoded, the destructor changes nothing. -/
theorem C8_destructor_wipes (s : ObfuscatedStringState) :
    (s.dec = true →
      (destruct s).decrypted = List.replicate s.decrypted.length 0 ∧
      ∀ c ∈ (destruct s).decrypted, c = 0) ∧
    (s.dec = false → destruct s = s) := by
  constructor
  · intro h
    constructor
    · simp [destruct, h, List.map_const']
    · intro c hc
      have h1 : (destruct s).decrypted = List.replicate s.decrypted.length 0 := by
        simp [destruct, h, List.map_const']
      rw [h1] at hc
      exact List.eq_of_mem_replicate hc
  · intro h
    simp [destruct, h]

/-- Witness for C8: a decoded instance is wiped; an undecoded one is untouched. -/
theorem C8_destructor_wipes_witness :
    (destruct { encrypted := [1, 2], decrypted := [7, 8], dec := true }).decrypted
      = List.replicate 2 0 ∧
    destruct { encrypted := [1, 2], decrypted := [], dec := false }
      = { encrypted := [1, 2], decrypted := [], dec := false } :=
  ⟨((C8_destructor_wipes _).1 rfl).1, (C8_destructor_wipes _).2 rfl⟩

end StringObfuscator

/-! ## Bit-level helpers for the dispatcher claims -/

theorem testBit_seven_ge (i : Nat) (h : 3 ≤ i) : Nat.testBit 7 i = false :=
  Nat.testBit_lt_two_pow
    (Nat.lt_of_lt_of_le (by decide) (Nat.pow_le_pow_right (by decide) h))

theorem shl3_mod_and7 (y : Nat) : ((y <<< 3) % 4294967296) &&& 7 = 0 := by
  apply Nat.eq_of_testBit_eq
  intro i
  rw [show (4294967296 : Nat) = 2 ^ 32 from rfl]
  simp only [Nat.testBit_and, Nat.testBit_mod_two_pow, Nat.testBit_shiftLeft,
    Nat.zero_testBit]
  by_cases h3 : 3 ≤ i
  · simp [testBit_seven_ge i h3]
  · simp [h3]

theorem and_seven_eq_mod_eight (x : Nat) : x &&& 7 = x % 8 := by
  rw [show (8 : Nat) = 2 ^ 3 from rfl]
  apply Nat.eq_of_testBit_eq
  intro i
  simp only [Nat.testBit_and, Nat.testBit_mod_two_pow]
  by_cases h3 : i < 3
  · interval_cases i <;>
      simp [show Nat.testBit 7 0 = true from rfl, show Nat.testBit 7 1 = true from rfl,
        show Nat.testBit 7 2 = true from rfl]
  · simp [testBit_seven_ge i (Nat.le_of_not_lt h3), h3]

theorem lor_one_and_one (x : Nat) : (x ||| 1) &&& 1 = 1 := by
  apply Nat.eq_of_testBit_eq
  intro i
  simp only [Nat.testBit_and, Nat.testBit_lor]
  cases i with
  | zero => simp [show Nat.testBit 1 0 = true from rfl]
  | succ n =>
    have h1 : Nat.testBit 1 (n + 1) = false :=
      Nat.testBit_lt_two_pow
        (Nat.lt_of_lt_of_le (by decide)
          (Nat.pow_le_pow_right (by decide) (Nat.succ_le_succ (Nat.zero_le n))))
    simp [h1]

/-! ## C4: the primary pattern branch is seed-only, identical in every iteration -/

/-- C4: the selector passed to `emit_core` in repeat iteration `i` is
`S0 ^ S1 ^ S2 ^ (Si << 3)`; `(Si << 3)` has zero low three bits, so the
switch branch `sel & 7` equals `(S0 ^ S1 ^ S2) & 7 = (S0 ^ S1 ^ S2) mod 8`
(one of the 8 switch branches) in every iteration, for every `Line`, `Ctr`
and build fingerprint. -/
theorem C4_primary_branch_constant (tu Line Ctr i : Nat) :
    junk_detail.emit_coreBranch (junk_detail.coreSelAt tu Line Ctr i)
      = ((junk_detail.S0v tu Line Ctr ^^^ junk_detail.S1v tu Line Ctr) ^^^
          junk_detail.S2v tu Line Ctr) &&& 7 ∧
    junk_detail.emit_coreBranch (junk_detail.coreSelAt tu Line Ctr i)
      = ((junk_detail.S0v tu Line Ctr ^^^ junk_detail.S1v tu Line Ctr) ^^^
          junk_detail.S2v tu Line Ctr) % 8 ∧
    junk_detail.emit_coreBranch (junk_detail.coreSelAt tu Line Ctr i) < 8 := by
  have hmain : junk_detail.emit_coreBranch (junk_detail.coreSelAt tu Line Ctr i)
      = ((junk_detail.S0v tu Line Ctr ^^^ junk_detail.S1v tu Line Ctr) ^^^
          junk_detail.S2v tu Line Ctr) &&& 7 := by
    unfold junk_detail.emit_coreBranch junk_detail.coreSelAt
    rw [Nat.and_xor_distrib_right, shl3_mod_and7, Nat.xor_zero]
  refine ⟨hmain, ?_, ?_⟩
  · rw [hmain, and_seven_eq_mod_eight]
  · rw [hmain]
    exact Nat.lt_succ_of_le Nat.and_le_right

/-! ## C5: plan-parameter ranges of `emit` and `emit_heavy` -/

theorem countP_core_heavyIter (tu Line Ctr : Nat) :
    ∀ ks : List Nat,
    List.countP junk_detail.isCore (ks.flatMap (junk_detail.heavyIterEvents tu Line Ctr))
      = ks.length
  | [] => rfl
  | k :: ks => by
    rw [List.flatMap_cons, List.countP_append, countP_core_heavyIter tu Line Ctr ks]
    have hone : List.countP junk_detail.isCore (junk_detail.heavyIterEvents tu Line Ctr k) = 1 := by
      by_cases h : junk_detail.SkAt tu Line Ctr k &&& 0x4000 ≠ 0 <;>
        simp [junk_detail.heavyIterEvents, h, junk_detail.isCore, List.countP_cons]
    rw [hone]
    simp [Nat.add_comm]

/-- C5: for every call site and build fingerprint, the dispatcher's plan
parameters lie in the stated ranges: `repeats ∈ [1,4]`, `r0_base ∈ [1,8]`,
`r1_base ∈ [2,9]`, the per-iteration jitter added to each round-count base is
at most 3, and heavy mode appends exactly `extra = 1 + ((Sx >> 22) & 7) ∈ [1,8]`
further `emit_core` invocations after the normal `emit` trace. -/
theorem C5_plan_parameter_ranges (tu Line Ctr : Nat) :
    (1 ≤ junk_detail.repeats tu Line Ctr ∧ junk_detail.repeats tu Line Ctr ≤ 4) ∧
    (1 ≤ junk_detail.r0_base tu Line Ctr ∧ junk_detail.r0_base tu Line Ctr ≤ 8) ∧
    (2 ≤ junk_detail.r1_base tu Line Ctr ∧ junk_detail.r1_base tu Line Ctr ≤ 9) ∧
    (∀ i : Nat, (junk_detail.SiAt tu Line Ctr i >>> 21) &&& 3 ≤ 3 ∧
      (junk_detail.SiAt tu Line Ctr i >>> 23) &&& 3 ≤ 3) ∧
    (1 ≤ junk_detail.extraCount tu Line Ctr ∧ junk_detail.extraCount tu Line Ctr ≤ 8) ∧
    junk_detail.emitHeavyEvents tu Line Ctr
      = junk_detail.emitEvents tu Line Ctr ++
        (List.range (junk_detail.extraCount tu Line Ctr)).flatMap
          (junk_detail.heavyIterEvents tu Line Ctr) ∧
    List.countP junk_detail.isCore
      ((List.range (junk_detail.extraCount tu Line Ctr)).flatMap
        (junk_detail.heavyIterEvents tu Line Ctr))
      = junk_detail.extraCount tu Line Ctr := by
  have h3 : ∀ y : Nat, y &&& 3 ≤ 3 := fun y => Nat.and_le_right
  have h7 : ∀ y : Nat, y &&& 7 ≤ 7 := fun y => Nat.and_le_right
  refine ⟨⟨?_, ?_⟩, ⟨?_, ?_⟩, ⟨?_, ?_⟩, ?_, ⟨?_, ?_⟩, rfl, ?_⟩
  · exact Nat.le_add_right 1 _
  · have := h3 (junk_detail.S2v tu Line Ctr >>> 28)
    unfold junk_detail.repeats
    omega
  · exact Nat.le_add_right 1 _
  · have := h7 (junk_detail.S0v tu Line Ctr >>> 25)
    unfold junk_detail.r0_base
    omega
  · exact Nat.le_add_right 2 _
  · have := h7 (junk_detail.S1v tu Line Ctr >>> 26)
    unfold junk_detail.r1_base
    omega
  · intro i
    exact ⟨h3 _, h3 _⟩
  · exact Nat.le_add_right 1 _
  · have := h7 (junk_detail.S0v tu Line Ctr >>> 22)
    unfold junk_detail.extraCount
    omega
  · rw [countP_core_heavyIter tu Line Ctr (List.range (junk_detail.extraCount tu Line Ctr))]
    simp

/-! ## C10: at least one secondary pattern always fires -/

/-- C10: bit 0 of `sec_mask` is forced by `| 0x1`, so in the first repeat
iteration (`i = 0`, present since `repeats ≥ 1`) the small-vector secondary
`p_small_vec` is unconditionally invoked; the number of secondary-pattern
invocations of `emit<Line, Ctr>` is therefore never zero. -/
theorem C10_secondary_always_fires (tu Line Ctr : Nat) :
    junk_detail.sec_mask tu Line Ctr &&& 1 = 1 ∧
    junk_detail.JEvent.smallVec (junk_detail.SiAt tu Line Ctr 0 ^^^ 0xA5A5A5A5)
      ∈ junk_detail.emitEvents tu Line Ctr ∧
    0 < List.countP junk_detail.isSecondary (junk_detail.emitEvents tu Line Ctr) := by
  have hbit : junk_detail.sec_mask tu Line Ctr &&& 1 = 1 := lor_one_and_one _
  have hcond : junk_detail.sec_mask tu Line Ctr &&& (1 <<< (0 % 8)) ≠ 0 := by
    rw [show ((1 : Nat) <<< (0 % 8)) = 1 from rfl, hbit]
    decide
  have hmem : junk_detail.JEvent.smallVec (junk_detail.SiAt tu Line Ctr 0 ^^^ 0xA5A5A5A5)
      ∈ junk_detail.emitEvents tu Line Ctr := by
    unfold junk_detail.emitEvents
    rw [List.mem_flatMap]
    refine ⟨0, List.mem_range.mpr ?_, ?_⟩
    · unfold junk_detail.repeats
      omega
    · simp only [junk_detail.iterEvents]
      refine List.mem_append_left _ (List.mem_append_left _ (List.mem_append_right _ ?_))
      rw [if_pos hcond]
      exact List.mem_cons_self _ _
  refine ⟨hbit, hmem, ?_⟩
  exact List.countP_pos_iff.mpr
    ⟨junk_detail.JEvent.smallVec (junk_detail.SiAt tu Line Ctr 0 ^^^ 0xA5A5A5A5), hmem, rfl⟩
